import Mathlib

/-!
Shallow embedding of the two binary decoders of the repository:
`ies.py` (table-file decoder, class `IesFile`) and `ipf.py` (archive
decoder, classes `IpfInfo` and `IpfArchive`).  Byte strings are modelled
as `List Nat` (one entry per byte), a seekable read-only file handle as a
`Cursor` (the underlying data plus the current position), and fallible
decoding as `Option`/`Except`.  All definitions are executable.
-/

/-- A seekable byte source: the whole file plus the read position.
Models the Python file handle (`open(name, 'rb')`). -/
structure Cursor where
  data : List Nat
  pos : Nat
deriving DecidableEq

/-- Model of Python `file.read(n)`: returns up to `n` bytes from the
current position (fewer at end of file) and advances the position by the
number of bytes actually read. -/
def Cursor.read (c : Cursor) (n : Nat) : List Nat × Cursor :=
  let chunk := (c.data.drop c.pos).take n
  (chunk, { c with pos := c.pos + chunk.length })

/-- `read(n)` followed by a `struct.unpack` of exactly `n` bytes: fails
(as the Python `struct.error`) when fewer than `n` bytes were available. -/
def Cursor.readExact (c : Cursor) (n : Nat) : Option (List Nat × Cursor) :=
  let (chunk, c') := c.read n
  if chunk.length = n then some (chunk, c') else none

/-- Little-endian value of a byte list, as `struct.unpack '<H'/'<I'`
reads 2- and 4-byte fields. -/
def leNat (bs : List Nat) : Nat :=
  bs.foldr (fun b acc => b + 256 * acc) 0

/-- Python `string.strip('\x00')`: removes NUL bytes from BOTH ends of
the string (leading and trailing), leaving interior bytes alone. -/
def pyStripNul (s : List Nat) : List Nat :=
  ((s.dropWhile (fun b => b == 0)).reverse.dropWhile (fun b => b == 0)).reverse

/-- `IesFile._decrypt_string` (src/ies.py line 34): strip NUL bytes from
both ends, then XOR every remaining byte with 0x01. -/
def decryptString (s : List Nat) : List Nat :=
  (pyStripNul s).map (fun b => b ^^^ 1)

/-- The obfuscation encoder named by the spec: XOR every byte with 0x01
(no stripping).  The repository has no encoder; this is its stated
inverse direction. -/
def encodeString (s : List Nat) : List Nat :=
  s.map (fun b => b ^^^ 1)

/-- A column descriptor as built in `IesFile._open` (src/ies.py line 70):
`{'name': name1, 'name2': name2, 'type': coltype, 'position': position,
'unknown': _}`. -/
structure Column where
  name : List Nat
  name2 : List Nat
  type : Nat
  position : Nat
  unknown : Nat
deriving DecidableEq

/-- The sort key of src/ies.py line 80: `key=lambda c: c['position']`. -/
def posLe (c₁ c₂ : Column) : Prop :=
  c₁.position ≤ c₂.position

instance : DecidableRel posLe := fun c₁ c₂ => Nat.decLe c₁.position c₂.position

instance : IsTotal Column posLe := ⟨fun c₁ c₂ => Nat.le_total c₁.position c₂.position⟩

instance : IsTrans Column posLe := ⟨fun _ _ _ => Nat.le_trans⟩

/-- Strict version of `posLe`, used to reason about sorts over pairwise
distinct positions. -/
def posLt (c₁ c₂ : Column) : Prop :=
  c₁.position < c₂.position

instance : IsAntisymm Column posLt :=
  ⟨fun _ _ h h' => absurd (Nat.lt_trans h h') (Nat.lt_irrefl _)⟩

/-- Classification and ordering of src/ies.py lines 71-80: integer
columns (`type == 0`) in on-disk order, string columns (`type in (1,2)`)
in on-disk order, each list stably sorted by `position`, integer columns
first.  Descriptors of any other type are appended to neither list. -/
def buildColumns (cols : List Column) : List Column :=
  (cols.filter (fun c => c.type == 0)).insertionSort posLe ++
    (cols.filter (fun c => c.type == 1 || c.type == 2)).insertionSort posLe

/-- One 88-byte column record of the column block (src/ies.py lines
63-74): two 64-byte obfuscated labels, then `struct.unpack('<HIH')` of an
exact 8-byte descriptor. -/
def readColumn (c : Cursor) : Option (Column × Cursor) :=
  let (b1, c) := c.read 64
  let (b2, c) := c.read 64
  match c.readExact 8 with
  | none => none
  | some (d, c) =>
    some ({ name := decryptString b1, name2 := decryptString b2,
            type := leNat (d.take 2), unknown := leNat ((d.drop 2).take 4),
            position := leNat (d.drop 6) }, c)

/-- The column loop of src/ies.py lines 63-78, in on-disk order. -/
def readColumns : Nat → Cursor → Option (List Column × Cursor)
  | 0, c => some ([], c)
  | n + 1, c =>
    match readColumn c with
    | none => none
    | some (col, c) => (readColumns n c).map (fun out => (col :: out.1, out.2))

/-- A decoded row cell.  `int`/`float` come from numeric columns,
`str` from string columns; `none` is the Python `None` appended when
`struct.unpack('<f')` produced a non-finite value after a finite one had
already been seen (src/ies.py lines 102-110). -/
inductive Value where
  | int (i : Int) : Value
  | float (q : ℚ) : Value
  | str (s : List Nat) : Value
  | none : Value
deriving DecidableEq

/-- Exact rational value of a little-endian IEEE-754 binary32 bit
pattern; `Option.none` for the non-finite encodings (exponent field 255:
infinities and NaNs), on which Python `int()` raises. -/
def float32ToRat (bits : Nat) : Option ℚ :=
  let sign : Nat := bits / 2 ^ 31
  let e : Nat := bits / 2 ^ 23 % 2 ^ 8
  let m : Nat := bits % 2 ^ 23
  if e = 255 then Option.none
  else
    let mag : ℚ :=
      if e = 0 then (m : ℚ) / 2 ^ 149
      else ((2 ^ 23 + m : ℚ)) * 2 ^ e / 2 ^ 150
    some (if sign = 1 then -mag else mag)

/-- Python `int()` on a rational: truncation toward zero. -/
def truncRat (q : ℚ) : Int :=
  if q < 0 then -⌊-q⌋ else ⌊q⌋

/-- The numeric cell rule of src/ies.py lines 101-110: `intval =
int(floatval); if floatval == intval: row.append(intval) else:
row.append(floatval)`. -/
def decodeNumber (q : ℚ) : Value :=
  if (truncRat q : ℚ) = q then Value.int (truncRat q) else Value.float q

/-- The per-column body of the row loop (src/ies.py lines 97-121).
`seen` tracks whether `intval` is already bound in the Python frame: on a
non-finite float, `int()` raises, the handler sets `floatval = None`, and
`floatval == intval` then needs `intval` bound (a `NameError`, hence
decode failure, if no finite float was ever read) and is `False`
otherwise, appending `None`. -/
def readRowCells : List Column → Bool → Cursor → Option (List Value × Bool × Cursor)
  | [], seen, c => some ([], seen, c)
  | col :: rest, seen, c =>
    if col.type = 0 then
      match c.readExact 4 with
      | Option.none => Option.none
      | some (b, c) =>
        match float32ToRat (leNat b) with
        | some q => (readRowCells rest true c).map (fun out => (decodeNumber q :: out.1, out.2))
        | Option.none =>
          if seen then (readRowCells rest seen c).map (fun out => (Value.none :: out.1, out.2))
          else Option.none
    else if col.type = 1 ∨ col.type = 2 then
      match c.readExact 2 with
      | Option.none => Option.none
      | some (b, c) =>
        let len := leNat b
        if len = 0 then
          (readRowCells rest seen c).map (fun out => (Value.str [] :: out.1, out.2))
        else
          let (sb, c) := c.read len
          (readRowCells rest seen c).map
            (fun out => (Value.str (decryptString sb) :: out.1, out.2))
    else
      readRowCells rest seen c

/-- The row loop of src/ies.py lines 88-123: per row a 6-byte header
`struct.unpack('<IH')`, a skip of `optional` bytes, the cells in
`columns` order, then `seek(string_column_count, 1)`. -/
def readRows (cols : List Column) (stringColumnCount : Nat) :
    Nat → Bool → Cursor → Option (List (List Value) × Bool × Cursor)
  | 0, seen, c => some ([], seen, c)
  | n + 1, seen, c =>
    match c.readExact 6 with
    | Option.none => Option.none
    | some (b, c) =>
      let optional := leNat (b.drop 4)
      let (_, c) := c.read optional
      match readRowCells cols seen c with
      | Option.none => Option.none
      | some (row, seen, c) =>
        (readRows cols stringColumnCount n seen { c with pos := c.pos + stringColumnCount }).map
          (fun out => (row :: out.1, out.2))

/-- The decoded table: `table_name`, `columns` and `rows` of `IesFile`. -/
structure IesTable where
  table_name : List Nat
  columns : List Column
  rows : List (List Value)
deriving DecidableEq

/-- `IesFile._open` (src/ies.py lines 37-123): 128-byte name (re-encoded
as UTF-8, which on a Python 2 str demands pure ASCII), 16-byte primary
header `'<IIII'`, 12-byte data header `'<HHHHHH'`, a seek to
`end - resource_offset - data_offset` for the column block (an `IOError`
when that is before the start of the file), the column loop, the sort of
line 80, a seek to `end - resource_offset`, and the row loop. -/
def iesOpen (file : List Nat) : Option IesTable :=
  let c : Cursor := { data := file, pos := 0 }
  let (nameB, c) := c.read 128
  if nameB.all (fun b => b < 128) then
    match c.readExact 16 with
    | Option.none => Option.none
    | some (h, c) =>
      let data_offset := leNat ((h.drop 4).take 4)
      let resource_offset := leNat ((h.drop 8).take 4)
      match c.readExact 12 with
      | Option.none => Option.none
      | some (dh, _) =>
        let row_count := leNat ((dh.drop 2).take 2)
        let column_count := leNat ((dh.drop 4).take 2)
        let string_column_count := leNat ((dh.drop 8).take 2)
        if resource_offset + data_offset ≤ file.length then
          let cc : Cursor := { data := file, pos := file.length - (resource_offset + data_offset) }
          match readColumns column_count cc with
          | Option.none => Option.none
          | some (cols, _) =>
            let columns := buildColumns cols
            let rc : Cursor := { data := file, pos := file.length - resource_offset }
            match readRows columns string_column_count row_count false rc with
            | Option.none => Option.none
            | some (rows, _, _) =>
              some { table_name := nameB, columns := columns, rows := rows }
        else Option.none
  else Option.none

/-- Python `str.lower()` on one byte: ASCII upper-case letters map to
lower-case, all other bytes are unchanged. -/
def lowerByte (b : Nat) : Nat :=
  if 65 ≤ b ∧ b ≤ 90 then b + 32 else b

/-- One file entry of the archive index, `IpfInfo` of src/ipf.py: the
fixed 20-byte record unpacked as `'<HIIIIH'` plus the two
variable-length names read after it. -/
structure IpfInfo where
  filename_length : Nat
  crc : Nat
  compressed_length : Nat
  uncompressed_length : Nat
  data_offset : Nat
  archivename_length : Nat
  archivename : List Nat
  filename : List Nat
deriving DecidableEq

/-- The failures `IpfArchive._open` can raise: an `IOError` from
`seek(-24, 2)` on a file shorter than the footer, the
`'Unknown archive format'` exception of line 129, a `struct.error` from
a short 20-byte entry record, and the `'Duplicate file name'` exception
of line 141. -/
inductive IpfError where
  | tooSmall : IpfError
  | badFormat : IpfError
  | truncatedEntry : IpfError
  | duplicateFile : IpfError
deriving DecidableEq

instance {ε α : Type _} [DecidableEq ε] [DecidableEq α] : DecidableEq (Except ε α) := fun x y =>
  match x, y with
  | Except.ok a, Except.ok b =>
    if h : a = b then Decidable.isTrue (congrArg Except.ok h)
    else Decidable.isFalse (fun hc => h (Except.ok.inj hc))
  | Except.error a, Except.error b =>
    if h : a = b then Decidable.isTrue (congrArg Except.error h)
    else Decidable.isFalse (fun hc => h (Except.error.inj hc))
  | Except.ok _, Except.error _ => Decidable.isFalse (fun hc => Except.noConfusion hc)
  | Except.error _, Except.ok _ => Decidable.isFalse (fun hc => Except.noConfusion hc)

/-- The decoded archive: footer fields and the `files` mapping of
`IpfArchive`, keyed by lowercased filename (a Python dict, modelled as
the association list in insertion order).  `data` is the borrowed byte
source that `get_data` later reads from. -/
structure IpfArchive where
  data : List Nat
  file_count : Nat
  filetable_offset : Nat
  filefooter_offset : Nat
  format : List Nat
  base_revision : Nat
  revision : Nat
  files : List (List Nat × IpfInfo)
deriving DecidableEq

/-- One iteration of the file-table loop (src/ipf.py lines 134-137):
`IpfInfo.from_buffer` on an exact 20-byte record, then the
`archivename_length`- and `filename_length`-byte names. -/
def parseIpfEntry (c : Cursor) : Option (IpfInfo × Cursor) :=
  match c.readExact 20 with
  | Option.none => Option.none
  | some (b, c) =>
    let filename_length := leNat (b.take 2)
    let archivename_length := leNat ((b.drop 18).take 2)
    let (an, c) := c.read archivename_length
    let (fn, c) := c.read filename_length
    some ({ filename_length := filename_length, crc := leNat ((b.drop 2).take 4),
            compressed_length := leNat ((b.drop 6).take 4),
            uncompressed_length := leNat ((b.drop 10).take 4),
            data_offset := leNat ((b.drop 14).take 4),
            archivename_length := archivename_length,
            archivename := an, filename := fn }, c)

/-- The file-table loop of src/ipf.py lines 133-143: parse each entry,
fail on a lowercased-filename collision (`raise Exception('Duplicate
file name: ...')`), otherwise insert under the lowercased filename. -/
def readIpfEntries : Nat → Cursor → List (List Nat × IpfInfo) →
    Except IpfError (List (List Nat × IpfInfo))
  | 0, _, acc => Except.ok acc
  | n + 1, c, acc =>
    match parseIpfEntry c with
    | Option.none => Except.error IpfError.truncatedEntry
    | some (info, c) =>
      let key := info.filename.map lowerByte
      if (acc.lookup key).isSome then Except.error IpfError.duplicateFile
      else readIpfEntries n c (acc ++ [(key, info)])

/-- The last 24 bytes of the file, as `seek(-24, 2)` + `read(24)`
return them when the file is at least 24 bytes long. -/
def ipfFooter (file : List Nat) : List Nat :=
  file.drop (file.length - 24)

/-- The 4-byte `format_tag` field: bytes 12-15 of the footer,
`'4s'` of the `'<HIHI4sII'` unpack. -/
def ipfTag (file : List Nat) : List Nat :=
  ((ipfFooter file).drop 12).take 4

/-- `IpfArchive._open` (src/ipf.py lines 114-143): read the trailing
24-byte footer, unpack `'<HIHI4sII'`, reject any `_format` other than
`'\x50\x4b\x05\x06'` (the one member of `SUPPORTED_FORMATS`, line 9),
then seek to `_filetable_offset` and read `file_count` entries. -/
def ipfOpen (file : List Nat) : Except IpfError IpfArchive :=
  if 24 ≤ file.length then
    if ipfTag file = [80, 75, 5, 6] then
      match readIpfEntries (leNat ((ipfFooter file).take 2))
          { data := file, pos := leNat (((ipfFooter file).drop 2).take 4) } [] with
      | Except.ok fs =>
        Except.ok { data := file,
                    file_count := leNat ((ipfFooter file).take 2),
                    filetable_offset := leNat (((ipfFooter file).drop 2).take 4),
                    filefooter_offset := leNat (((ipfFooter file).drop 8).take 4),
                    format := ipfTag file,
                    base_revision := leNat (((ipfFooter file).drop 16).take 4),
                    revision := leNat (((ipfFooter file).drop 20).take 4),
                    files := fs }
      | Except.error e => Except.error e
    else Except.error IpfError.badFormat
  else Except.error IpfError.tooSmall

/-- `IpfArchive.get` (src/ipf.py lines 145-159): look the lowercased
query up in `files`; `None` when absent. -/
def IpfArchive.get (a : IpfArchive) (filename : List Nat) : Option IpfInfo :=
  a.files.lookup (filename.map lowerByte)

/-- What `get_data` returns: `None` for an unknown name, the payload
bytes, or the `zlib.error` escaping from `zlib.decompress`. -/
inductive GetResult where
  | notFound : GetResult
  | data (bytes : List Nat) : GetResult
  | decompressError : GetResult
deriving DecidableEq

/-- `seek(info.data_offset)` + `read(info.compressed_length)`: the
payload slice of the archive. -/
def readAt (data : List Nat) (off len : Nat) : List Nat :=
  (data.drop off).take len

/-- `IpfArchive.get_data` (src/ipf.py lines 161-179), with the external
`zlib.decompress(data, -15)` (raw deflate, negative window) passed in as
`inflate` (`Option.none` models `zlib.error` on malformed input): `None`
when the name is absent, the raw slice verbatim when
`compressed_length == uncompressed_length`, the inflated slice
otherwise. -/
def IpfArchive.get_data (a : IpfArchive) (inflate : List Nat → Option (List Nat))
    (filename : List Nat) : GetResult :=
  match a.get filename with
  | Option.none => GetResult.notFound
  | some info =>
    let data := readAt a.data info.data_offset info.compressed_length
    if info.compressed_length = info.uncompressed_length then GetResult.data data
    else
      match inflate data with
      | some out => GetResult.data out
      | Option.none => GetResult.decompressError

/-! Concrete byte inputs used to instantiate the theorems below. -/

/-- Two bytes, little endian. -/
def u16 (n : Nat) : List Nat := [n % 256, n / 256 % 256]

/-- Four bytes, little endian. -/
def u32 (n : Nat) : List Nat := [n % 256, n / 256 % 256, n / 65536 % 256, n / 16777216 % 256]

/-- A 136-byte on-disk column record: a one-byte obfuscated label padded
to 64 bytes, an empty 64-byte second label, and the 8-byte descriptor
`{type, unknown = 0, position}`. -/
def colDesc (nb ty pos : Nat) : List Nat :=
  (nb :: List.replicate 63 0) ++ List.replicate 64 0 ++ u16 ty ++ u32 0 ++ u16 pos

/-- A 302-byte table file: one integer column at position 0 and one row
holding the float 3.0 (bytes `00 00 40 40`). -/
def file302 : List Nat :=
  List.replicate 128 0 ++ u32 0 ++ u32 136 ++ u32 10 ++ u32 302 ++
    (u16 0 ++ u16 1 ++ u16 1 ++ u16 1 ++ u16 0 ++ u16 0) ++
    colDesc 104 0 0 ++
    (u32 0 ++ u16 0 ++ [0, 0, 64, 64])

/-- The table `file302` decodes to. -/
def tbl302 : IesTable :=
  { table_name := List.replicate 128 0,
    columns := [{ name := [105], name2 := [], type := 0, position := 0, unknown := 0 }],
    rows := [[Value.int 3]] }

/-- Shared 156-byte prefix of the two column-permutation files: zero
rows, two columns, column block of 272 bytes directly after the
headers. -/
def iesPre : List Nat :=
  List.replicate 128 0 ++ u32 0 ++ u32 272 ++ u32 0 ++ u32 428 ++
    (u16 0 ++ u16 0 ++ u16 2 ++ u16 2 ++ u16 0 ++ u16 0)

/-- Two integer columns, both at position 7, declared label 104 first. -/
def fileAB : List Nat := iesPre ++ colDesc 104 0 7 ++ colDesc 106 0 7

/-- The same two descriptors (same `position` values) in the other
on-disk order. -/
def fileBA : List Nat := iesPre ++ colDesc 106 0 7 ++ colDesc 104 0 7

/-- One on-disk file-table record: the 20-byte fixed part followed by
archive name and filename. -/
def ipfRecord (fn an : List Nat) (crc comp uncomp off : Nat) : List Nat :=
  u16 fn.length ++ u32 crc ++ u32 comp ++ u32 uncomp ++ u32 off ++ u16 an.length ++ an ++ fn

/-- A 24-byte archive footer with the supported `50 4B 05 06` tag. -/
def ipfFooterBytes (count fto : Nat) : List Nat :=
  u16 count ++ u32 fto ++ u16 0 ++ u32 0 ++ [80, 75, 5, 6] ++ u32 0 ++ u32 0

/-- A 50-byte archive: a stored entry named `Ab` (bytes 65 98) in group
`d`, whose 3-byte payload `[10, 20, 30]` sits at offset 0 with
`compressed_length = uncompressed_length = 3`. -/
def ipfFile1 : List Nat :=
  [10, 20, 30] ++ ipfRecord [65, 98] [100] 0 3 3 0 ++ ipfFooterBytes 1 3

/-- The index entry encoded in `ipfFile1`. -/
def info1 : IpfInfo :=
  { filename_length := 2, crc := 0, compressed_length := 3, uncompressed_length := 3,
    data_offset := 0, archivename_length := 1, archivename := [100], filename := [65, 98] }

/-- The archive `ipfFile1` decodes to: one entry under the lowercased
key `ab` (bytes 97 98). -/
def arc1 : IpfArchive :=
  { data := ipfFile1, file_count := 1, filetable_offset := 3, filefooter_offset := 0,
    format := [80, 75, 5, 6], base_revision := 0, revision := 0,
    files := [([97, 98], info1)] }

/-- An archive whose two entries collide on the lowercased filename
(`A` then `a`). -/
def ipfDupFile : List Nat :=
  ipfRecord [65] [] 0 0 0 0 ++ ipfRecord [97] [] 0 0 0 0 ++ ipfFooterBytes 2 0

/-! Helper lemmas about the obfuscation codec. -/

lemma xor_one_xor_one (b : Nat) : b ^^^ 1 ^^^ 1 = b := by
  rw [Nat.xor_assoc, Nat.xor_self, Nat.xor_zero]

lemma xor_one_eq_zero_iff (b : Nat) : b ^^^ 1 = 0 ↔ b = 1 := by
  constructor
  · intro h
    have := congrArg (fun x => x ^^^ 1) h
    simpa [xor_one_xor_one] using this
  · intro h
    subst h
    exact Nat.xor_self 1

lemma dropWhile_eq_self_of_head {p : Nat → Bool} {s : List Nat}
    (h : ∀ a, s.head? = some a → p a = false) : s.dropWhile p = s := by
  cases s with
  | nil => rfl
  | cons a t => simp [List.dropWhile_cons, h a rfl]

lemma map_xor_one_xor_one (s : List Nat) :
    (s.map (fun b => b ^^^ 1)).map (fun b => b ^^^ 1) = s := by
  rw [List.map_map]
  have : ((fun b => b ^^^ 1) ∘ fun b : Nat => b ^^^ 1) = id := by
    funext b
    simp [Function.comp, xor_one_xor_one]
  rw [this, List.map_id]

lemma pyStripNul_map_encode (s : List Nat) (h1 : s.head? ≠ some 1)
    (h2 : s.getLast? ≠ some 1) :
    pyStripNul (s.map (fun b => b ^^^ 1)) = s.map (fun b => b ^^^ 1) := by
  have hhead : ∀ (t : List Nat), t.head? ≠ some 1 →
      (t.map (fun b => b ^^^ 1)).dropWhile (fun b => b == 0) = t.map (fun b => b ^^^ 1) := by
    intro t ht
    apply dropWhile_eq_self_of_head
    intro a ha
    cases t with
    | nil => simp at ha
    | cons x xs =>
      simp only [List.map_cons, List.head?_cons, Option.some.injEq] at ha
      subst ha
      have hx : x ≠ 1 := fun hc => ht (by simp [hc])
      simp only [beq_eq_false_iff_ne, ne_eq]
      exact fun hz => hx ((xor_one_eq_zero_iff x).mp hz)
  unfold pyStripNul
  rw [hhead s h1]
  rw [(List.map_reverse (fun b => b ^^^ 1) s).symm]
  rw [hhead s.reverse (by rw [List.head?_reverse]; exact h2)]
  rw [List.map_reverse, List.reverse_reverse]

/-- Claim C5 (amended): the obfuscation decode inverts the XOR-with-0x01
encode on every byte string that neither begins nor ends with the byte
0x01 (an encoded 0x01 is a NUL, and `_decrypt_string` strips NULs from
the ends of its input). -/
theorem decrypt_encode_roundtrip (s : List Nat) (h1 : s.head? ≠ some 1)
    (h2 : s.getLast? ≠ some 1) : decryptString (encodeString s) = s := by
  unfold decryptString encodeString
  rw [pyStripNul_map_encode s h1 h2, map_xor_one_xor_one]

/-- Claim C5 witness: the round-trip at the concrete byte string
`[104, 0, 105]` (an interior NUL included). -/
theorem decrypt_encode_roundtrip_witness :
    ([104, 0, 105] : List Nat).head? ≠ some 1 ∧ ([104, 0, 105] : List Nat).getLast? ≠ some 1 ∧
      decryptString (encodeString [104, 0, 105]) = [104, 0, 105] :=
  ⟨by decide, by decide, decrypt_encode_roundtrip [104, 0, 105] (by decide) (by decide)⟩

/-- Claim C5 counterexample: `[1]` is not NUL-terminated, yet
`decode(encode([1]))` is the empty string, not `[1]`: `encode` turns the
leading/trailing 0x01 into a NUL, which `decode` strips. -/
theorem decrypt_encode_roundtrip_cex :
    ([1] : List Nat).getLast? ≠ some 0 ∧ decryptString (encodeString [1]) ≠ [1] := by
  decide

/-- The string-obfuscation decode exactly as the spec words it: strip
trailing NUL bytes only, then XOR every remaining byte with 0x01. -/
def specDecodeTrailing (raw : List Nat) : List Nat :=
  ((raw.reverse.dropWhile (fun b => b == 0)).reverse).map (fun b => b ^^^ 1)

/-- Claim C6 (amended): `_decrypt_string` strips NUL bytes from BOTH
ends (Python `strip('\x00')`), then XORs with 0x01; it agrees with the
spec's trailing-only description exactly on inputs that do not begin
with a NUL byte.  Interior NULs are preserved (XORed) in either case. -/
theorem decrypt_strips_both_ends (raw : List Nat) (h : raw.head? ≠ some 0) :
    decryptString raw = specDecodeTrailing raw := by
  have hinner : raw.dropWhile (fun b => b == 0) = raw := by
    apply dropWhile_eq_self_of_head
    intro a ha
    rw [ha] at h
    simp only [beq_eq_false_iff_ne, ne_eq]
    exact fun hz => h (by rw [hz])
  unfold decryptString specDecodeTrailing pyStripNul
  rw [hinner]

/-- Claim C6 witness: on `[2, 0, 3, 0]` (an interior and a trailing NUL,
no leading NUL) the code and the spec's description agree. -/
theorem decrypt_strips_both_ends_witness :
    ([2, 0, 3, 0] : List Nat).head? ≠ some 0 ∧
      decryptString [2, 0, 3, 0] = specDecodeTrailing [2, 0, 3, 0] :=
  ⟨by decide, decrypt_strips_both_ends [2, 0, 3, 0] (by decide)⟩

/-- Claim C6 counterexample: on `[0, 2]` the code strips the LEADING NUL
(`[3]`) while the spec's trailing-only description keeps it XORed
(`[1, 3]`). -/
theorem decrypt_strips_both_ends_cex :
    decryptString [0, 2] ≠ specDecodeTrailing [0, 2] ∧
      decryptString [0, 2] = [3] ∧ specDecodeTrailing [0, 2] = [1, 3] := by
  decide

/-! Helper lemmas about the column sort. -/

lemma sorted_posLt_of_sorted_nodup {l : List Column} (hs : List.Sorted posLe l)
    (hnd : (l.map Column.position).Nodup) : List.Sorted posLt l := by
  have hne : l.Pairwise (fun a b => a.position ≠ b.position) := by
    rw [List.Nodup, List.pairwise_map] at hnd
    exact hnd
  exact (hs.and hne).imp (fun h => Nat.lt_of_le_of_ne h.1 h.2)

lemma insertionSort_eq_of_perm_of_nodup {l₁ l₂ : List Column} (hperm : l₁.Perm l₂)
    (hnd : (l₁.map Column.position).Nodup) :
    l₁.insertionSort posLe = l₂.insertionSort posLe := by
  have hp : (l₁.insertionSort posLe).Perm (l₂.insertionSort posLe) :=
    (List.perm_insertionSort posLe l₁).trans (hperm.trans (List.perm_insertionSort posLe l₂).symm)
  have hnd₁ : ((l₁.insertionSort posLe).map Column.position).Nodup :=
    (((List.perm_insertionSort posLe l₁).map Column.position).nodup_iff).mpr hnd
  have hnd₂ : ((l₂.insertionSort posLe).map Column.position).Nodup :=
    ((hp.map Column.position).nodup_iff).mp hnd₁
  exact List.eq_of_perm_of_sorted hp
    (sorted_posLt_of_sorted_nodup (List.sorted_insertionSort posLe l₁) hnd₁)
    (sorted_posLt_of_sorted_nodup (List.sorted_insertionSort posLe l₂) hnd₂)

/-- Claim C1 (amended): the decoded columns sequence is the integer
columns stably sorted by `position` followed by the string columns
stably sorted by `position` (definition of `buildColumns`, line 80 of
src/ies.py), and it is invariant under permutations of the on-disk
descriptors PROVIDED the `position` values are pairwise distinct among
the integer columns and among the string columns.  (With duplicated
positions the Python sort is stable, so on-disk order shows through —
see the counterexample.) -/
theorem column_order_perm_invariant (cols₁ cols₂ : List Column) (hperm : cols₁.Perm cols₂)
    (hint : ((cols₁.filter (fun c => c.type == 0)).map Column.position).Nodup)
    (hstr : ((cols₁.filter (fun c => c.type == 1 || c.type == 2)).map Column.position).Nodup) :
    buildColumns cols₁ = buildColumns cols₂ := by
  unfold buildColumns
  rw [insertionSort_eq_of_perm_of_nodup (hperm.filter _) hint,
    insertionSort_eq_of_perm_of_nodup (hperm.filter _) hstr]

/-- Claim C1 witness: two integer columns at distinct positions 1 and 2,
fed to the decoder's classification in both on-disk orders, give the
same columns sequence. -/
theorem column_order_perm_invariant_witness :
    buildColumns [{ name := [105], name2 := [], type := 0, position := 1, unknown := 0 },
        { name := [107], name2 := [], type := 0, position := 2, unknown := 0 }] =
      buildColumns [{ name := [107], name2 := [], type := 0, position := 2, unknown := 0 },
        { name := [105], name2 := [], type := 0, position := 1, unknown := 0 }] :=
  column_order_perm_invariant _ _ (by decide) (by decide) (by decide)

set_option maxRecDepth 8000 in
/-- Claim C1 counterexample: `fileAB` and `fileBA` differ only by
swapping two integer-column descriptors that share `position = 7`; both
decode successfully, but to different columns sequences (the stable sort
preserves on-disk order among equal positions). -/
theorem column_order_perm_invariant_cex :
    (iesOpen fileAB).isSome = true ∧ (iesOpen fileBA).isSome = true ∧
      Option.map IesTable.columns (iesOpen fileAB) ≠ Option.map IesTable.columns (iesOpen fileBA) := by
  decide

/-- Claim C9: a column descriptor whose `type` is neither 0, 1 nor 2
lands in neither classification list: every decoded column has a known
type, dropping the unknown-typed descriptors changes nothing, and the
row reader (which walks the decoded columns) reads the same values. -/
theorem unknown_column_types_dropped (cols : List Column) :
    (∀ c ∈ buildColumns cols, c.type = 0 ∨ c.type = 1 ∨ c.type = 2) ∧
      buildColumns cols =
        buildColumns (cols.filter (fun c => c.type == 0 || c.type == 1 || c.type == 2)) ∧
      ∀ scc n seen c, readRows (buildColumns cols) scc n seen c =
        readRows (buildColumns
          (cols.filter (fun c => c.type == 0 || c.type == 1 || c.type == 2))) scc n seen c := by
  have hmem : ∀ c ∈ buildColumns cols, c.type = 0 ∨ c.type = 1 ∨ c.type = 2 := by
    intro c hc
    unfold buildColumns at hc
    rcases List.mem_append.mp hc with hc | hc
    · have := (List.perm_insertionSort posLe _).mem_iff.mp hc
      have := List.of_mem_filter this
      left
      simpa using this
    · have := (List.perm_insertionSort posLe _).mem_iff.mp hc
      have := List.of_mem_filter this
      right
      simpa using this
  have hfe : buildColumns cols =
      buildColumns (cols.filter (fun c => c.type == 0 || c.type == 1 || c.type == 2)) := by
    unfold buildColumns
    rw [List.filter_filter, List.filter_filter]
    congr 2
    · apply List.filter_congr
      intro c _
      by_cases h : c.type = 0 <;> simp [h]
    · apply List.filter_congr
      intro c _
      by_cases h1 : c.type = 1
      · simp [h1]
      · by_cases h2 : c.type = 2 <;> simp [h1, h2]
  exact ⟨hmem, hfe, fun scc n seen c => by rw [hfe]⟩

/-- The concrete integer column used as witness input. -/
def colInt : Column :=
  { name := [105], name2 := [], type := 0, position := 0, unknown := 0 }

/-- Claim C4: in a row, an integer-typed column slot consumes exactly 4
bytes, interprets them as a little-endian IEEE-754 binary32 value `q`,
and yields the integer truncation of `q` when `q` equals its truncation
and the floating value `q` itself otherwise, before decoding the rest of
the row from the following position. -/
theorem int_column_float_collapse (col : Column) (more : List Column) (seen : Bool)
    (c : Cursor) (b : List Nat) (q : ℚ) (h0 : col.type = 0)
    (hb : (c.data.drop c.pos).take 4 = b) (hlen : b.length = 4)
    (hq : float32ToRat (leNat b) = some q) :
    readRowCells (col :: more) seen c =
      (readRowCells more true { c with pos := c.pos + 4 }).map
        (fun out =>
          ((if (truncRat q : ℚ) = q then Value.int (truncRat q) else Value.float q) :: out.1,
            out.2)) := by
  rw [readRowCells]
  rw [if_pos h0]
  unfold Cursor.readExact Cursor.read
  simp only [hb, hlen, if_pos]
  rw [hq]
  rfl

set_option maxRecDepth 100000 in
unseal Rat.add Rat.mul Rat.inv in
/-- Claim C4 witness: the stored float 3.0 (bytes `00 00 40 40`) decodes
to the integer 3. -/
theorem int_column_float_collapse_witness :
    readRowCells [colInt] false { data := [0, 0, 64, 64], pos := 0 } =
      some ([Value.int 3], true, { data := [0, 0, 64, 64], pos := 4 }) := by
  rw [int_column_float_collapse colInt [] false { data := [0, 0, 64, 64], pos := 0 }
    [0, 0, 64, 64] 3 rfl rfl rfl (by decide)]
  decide

/-- Predicate for the column types the row loop reads a value for. -/
def knownType (c : Column) : Bool :=
  c.type == 0 || c.type == 1 || c.type == 2

lemma readRowCells_length (cols : List Column) : ∀ (seen : Bool) (c : Cursor)
    (out : List Value × Bool × Cursor), readRowCells cols seen c = some out →
    out.1.length = (cols.filter knownType).length := by
  induction cols with
  | nil =>
    intro seen c out h
    simp only [readRowCells, Option.some.injEq] at h
    rw [← h]
    rfl
  | cons col rest ih =>
    intro seen c out h
    simp only [readRowCells] at h
    by_cases h0 : col.type = 0
    · rw [if_pos h0] at h
      rcases hre : c.readExact 4 with _ | ⟨b, c1⟩
      · simp [hre] at h
      · simp only [hre] at h
        rcases hf : float32ToRat (leNat b) with _ | q
        · simp only [hf] at h
          cases seen with
          | false => simp at h
          | true =>
            simp only [if_true] at h
            rcases hr : readRowCells rest true c1 with _ | out'
            · simp [hr] at h
            · simp only [hr, Option.map_some', Option.some.injEq] at h
              rw [← h]
              simp only [List.filter_cons, List.length_cons,
                show knownType col = true by simp [knownType, h0]]
              exact congrArg Nat.succ (ih true c1 out' hr)
        · simp only [hf] at h
          rcases hr : readRowCells rest true c1 with _ | out'
          · simp [hr] at h
          · simp only [hr, Option.map_some', Option.some.injEq] at h
            rw [← h]
            simp only [List.filter_cons, List.length_cons,
              show knownType col = true by simp [knownType, h0]]
            exact congrArg Nat.succ (ih true c1 out' hr)
    · rw [if_neg h0] at h
      by_cases h12 : col.type = 1 ∨ col.type = 2
      · have hkt : knownType col = true := by
          rcases h12 with h1 | h1 <;> simp [knownType, h1]
        rw [if_pos h12] at h
        rcases hre : c.readExact 2 with _ | ⟨b, c1⟩
        · simp [hre] at h
        · simp only [hre] at h
          by_cases hz : leNat b = 0
          · rw [if_pos hz] at h
            rcases hr : readRowCells rest seen c1 with _ | out'
            · simp [hr] at h
            · simp only [hr, Option.map_some', Option.some.injEq] at h
              rw [← h]
              simp only [List.filter_cons, List.length_cons, hkt]
              exact congrArg Nat.succ (ih seen c1 out' hr)
          · rw [if_neg hz] at h
            rcases hr : readRowCells rest seen (c1.read (leNat b)).2 with _ | out'
            · simp [hr] at h
            · simp only [hr, Option.map_some', Option.some.injEq] at h
              rw [← h]
              simp only [List.filter_cons, List.length_cons, hkt]
              exact congrArg Nat.succ (ih seen _ out' hr)
      · rw [if_neg h12] at h
        have hkt : knownType col = false := by
          simp only [knownType, Bool.or_eq_false_iff, beq_eq_false_iff_ne, ne_eq]
          exact ⟨⟨h0, fun hc => h12 (Or.inl hc)⟩, fun hc => h12 (Or.inr hc)⟩
        simp only [List.filter_cons, hkt]
        exact ih seen c out h

lemma readRows_length (cols : List Column) (scc : Nat) : ∀ (n : Nat) (seen : Bool) (c : Cursor)
    (out : List (List Value) × Bool × Cursor), readRows cols scc n seen c = some out →
    ∀ row ∈ out.1, row.length = (cols.filter knownType).length := by
  intro n
  induction n with
  | zero =>
    intro seen c out h
    simp only [readRows, Option.some.injEq] at h
    rw [← h]
    intro row hrow
    simp at hrow
  | succ n ih =>
    intro seen c out h
    simp only [readRows] at h
    rcases hre : c.readExact 6 with _ | ⟨b, c1⟩
    · simp [hre] at h
    · simp only [hre] at h
      rcases hcells : readRowCells cols seen (c1.read (leNat (b.drop 4))).2 with _ | ⟨row, seen1, c2⟩
      · simp [hcells] at h
      · simp only [hcells] at h
        rcases hr : readRows cols scc n seen1 { c2 with pos := c2.pos + scc } with _ | out'
        · simp [hr] at h
        · simp only [hr, Option.map_some', Option.some.injEq] at h
          rw [← h]
          intro r hr'
          rcases List.mem_cons.mp hr' with hcase | hcase
          · rw [hcase]
            exact readRowCells_length cols seen _ (row, seen1, c2) hcells
          · exact ih seen1 { c2 with pos := c2.pos + scc } out' hr r hcase

lemma mem_buildColumns_type {c : Column} {cols : List Column} (h : c ∈ buildColumns cols) :
    c.type = 0 ∨ c.type = 1 ∨ c.type = 2 := by
  unfold buildColumns at h
  rcases List.mem_append.mp h with h | h
  · have := List.of_mem_filter ((List.perm_insertionSort posLe _).mem_iff.mp h)
    left
    simpa using this
  · have := List.of_mem_filter ((List.perm_insertionSort posLe _).mem_iff.mp h)
    right
    simpa using this

lemma buildColumns_filter_known (cols : List Column) :
    (buildColumns cols).filter knownType = buildColumns cols := by
  apply List.filter_eq_self.mpr
  intro c hc
  rcases mem_buildColumns_type hc with h | h | h <;> simp [knownType, h]

/-- Claim C2: whenever the table decoder succeeds, every decoded row has
exactly one value per decoded column. -/
theorem row_length_eq_columns_length (file : List Nat) (t : IesTable)
    (h : iesOpen file = some t) : ∀ row ∈ t.rows, row.length = t.columns.length := by
  unfold iesOpen at h
  simp only at h
  split at h
  · rcases hh : (({ data := file, pos := 0 : Cursor}).read 128).2.readExact 16 with _ | ⟨hd, c1⟩
    · rw [hh] at h
      simp at h
    · rw [hh] at h
      simp only at h
      rcases hdh : c1.readExact 12 with _ | ⟨dh, c2⟩
      · rw [hdh] at h
        simp at h
      · rw [hdh] at h
        simp only at h
        split at h
        · rcases hcols : readColumns (leNat ((dh.drop 4).take 2))
              { data := file, pos := file.length - (leNat ((hd.drop 8).take 4) + leNat ((hd.drop 4).take 4)) } with _ | ⟨cols, c3⟩
          · rw [hcols] at h
            simp at h
          · rw [hcols] at h
            simp only at h
            rcases hrows : readRows (buildColumns cols) (leNat ((dh.drop 8).take 2))
                (leNat ((dh.drop 2).take 2)) false
                { data := file, pos := file.length - leNat ((hd.drop 8).take 4) } with _ | rout
            · rw [hrows] at h
              simp at h
            · rw [hrows] at h
              simp only [Option.some.injEq] at h
              rw [← h]
              intro row hrow
              have := readRows_length (buildColumns cols) (leNat ((dh.drop 8).take 2))
                (leNat ((dh.drop 2).take 2)) false _ rout hrows row hrow
              rw [buildColumns_filter_known] at this
              exact this
        · exact absurd h (by simp)
  · exact absurd h (by simp)

set_option maxRecDepth 1000000 in
unseal Rat.add Rat.mul Rat.inv in
/-- Claim C2 witness: the synthetic table `file302` decodes successfully
(one integer column, one row `[3]`), and that row's length equals the
columns count. -/
theorem row_length_eq_columns_length_witness :
    iesOpen file302 = some tbl302 ∧ ([Value.int 3] : List Value).length = tbl302.columns.length :=
  ⟨by decide, row_length_eq_columns_length file302 tbl302 (by decide) [Value.int 3] (by decide)⟩

/-- Claim C3: for an entry found in the index, `get_data` reads the
`compressed_length`-byte slice at `data_offset`; equal lengths return
the slice verbatim, differing lengths return the raw-deflate inflation
of the slice (failing as the inflater fails), and the length comparison
is the only discriminator.  When the slice lies inside the file, exactly
`compressed_length` bytes are read. -/
theorem get_data_dispatch (a : IpfArchive) (inflate : List Nat → Option (List Nat))
    (fn : List Nat) (info : IpfInfo) (hget : a.get fn = some info) :
    (info.compressed_length = info.uncompressed_length →
      a.get_data inflate fn = GetResult.data (readAt a.data info.data_offset info.compressed_length)) ∧
    (info.compressed_length ≠ info.uncompressed_length →
      a.get_data inflate fn =
        match inflate (readAt a.data info.data_offset info.compressed_length) with
        | some out => GetResult.data out
        | Option.none => GetResult.decompressError) ∧
    (info.data_offset + info.compressed_length ≤ a.data.length →
      (readAt a.data info.data_offset info.compressed_length).length = info.compressed_length) := by
  refine ⟨?_, ?_, ?_⟩
  · intro heq
    unfold IpfArchive.get_data
    rw [hget]
    simp only [if_pos heq]
  · intro hne
    unfold IpfArchive.get_data
    rw [hget]
    simp only [if_neg hne]
  · intro hle
    unfold readAt
    rw [List.length_take, List.length_drop]
    omega

/-- Claim C3 witness: in the concrete archive `arc1`, the stored entry
(`compressed_length = uncompressed_length = 3`) comes back verbatim as
its payload slice. -/
theorem get_data_dispatch_witness :
    arc1.get_data (fun bs => some (bs ++ bs)) [97, 98] =
        GetResult.data (readAt arc1.data info1.data_offset info1.compressed_length) ∧
      (readAt arc1.data info1.data_offset info1.compressed_length).length =
        info1.compressed_length :=
  ⟨(get_data_dispatch arc1 (fun bs => some (bs ++ bs)) [97, 98] info1 (by decide)).1 (by decide),
    (get_data_dispatch arc1 (fun bs => some (bs ++ bs)) [97, 98] info1 (by decide)).2.2 (by decide)⟩

/-- Claim C7: with a readable 24-byte footer, a format tag other than
`50 4B 05 06` makes the archive decoder fail with the unknown-format
error (no index is returned), and the supported tag sends it on to read
the file table at `filetable_offset`. -/
theorem footer_tag_gate (file : List Nat) (h24 : 24 ≤ file.length) :
    (ipfTag file ≠ [80, 75, 5, 6] → ipfOpen file = Except.error IpfError.badFormat) ∧
    (ipfTag file = [80, 75, 5, 6] →
      ipfOpen file =
        match readIpfEntries (leNat ((ipfFooter file).take 2))
            { data := file, pos := leNat (((ipfFooter file).drop 2).take 4) } [] with
        | Except.ok fs =>
          Except.ok { data := file,
                      file_count := leNat ((ipfFooter file).take 2),
                      filetable_offset := leNat (((ipfFooter file).drop 2).take 4),
                      filefooter_offset := leNat (((ipfFooter file).drop 8).take 4),
                      format := ipfTag file,
                      base_revision := leNat (((ipfFooter file).drop 16).take 4),
                      revision := leNat (((ipfFooter file).drop 20).take 4),
                      files := fs }
        | Except.error e => Except.error e) := by
  constructor
  · intro htag
    unfold ipfOpen
    rw [if_pos h24, if_neg htag]
  · intro htag
    unfold ipfOpen
    rw [if_pos h24, if_pos htag]

/-- Claim C7 witness: a 24-byte all-zero file has a readable footer and
an unsupported tag, so decoding fails with the unknown-format error. -/
theorem footer_tag_gate_witness :
    24 ≤ (List.replicate 24 0 : List Nat).length ∧
      ipfOpen (List.replicate 24 0) = Except.error IpfError.badFormat :=
  ⟨by decide, (footer_tag_gate (List.replicate 24 0) (by decide)).1 (by decide)⟩

/-! Helper lemmas about the `files` association list (the Python dict
keyed by lowercased filename, in insertion order). -/

lemma lookup_eq_some_of_mem : ∀ (l : List (List Nat × IpfInfo)),
    (l.map Prod.fst).Nodup → ∀ p ∈ l, l.lookup p.1 = some p.2 := by
  intro l
  induction l with
  | nil =>
    intro _ p hp
    cases hp
  | cons q t ih =>
    intro hnd p hp
    simp only [List.map_cons, List.nodup_cons] at hnd
    rcases List.mem_cons.mp hp with hp | hp
    · rw [hp]
      simp [List.lookup]
    · have hne : p.1 ≠ q.1 := by
        intro hc
        exact hnd.1 (hc ▸ List.mem_map_of_mem Prod.fst hp)
      simp only [List.lookup, beq_eq_false_iff_ne.mpr hne]
      exact ih hnd.2 p hp

lemma lookup_eq_none_of_forall : ∀ (l : List (List Nat × IpfInfo)) (k : List Nat),
    (∀ p ∈ l, p.1 ≠ k) → l.lookup k = Option.none := by
  intro l
  induction l with
  | nil => intro k _; rfl
  | cons q t ih =>
    intro k h
    have : (k == q.1) = false := by
      simp only [beq_eq_false_iff_ne, ne_eq]
      exact fun hc => h q (List.mem_cons_self q t) hc.symm
    simp only [List.lookup, this]
    exact ih k (fun p hp => h p (List.mem_cons_of_mem q hp))

lemma lookup_isSome_of_mem_keys : ∀ (l : List (List Nat × IpfInfo)) (k : List Nat),
    k ∈ l.map Prod.fst → (l.lookup k).isSome = true := by
  intro l
  induction l with
  | nil => intro k hk; cases hk
  | cons q t ih =>
    intro k hk
    by_cases hq : k = q.1
    · simp [List.lookup, hq]
    · simp only [List.lookup, beq_eq_false_iff_ne.mpr hq]
      apply ih
      rcases List.mem_cons.mp hk with hk | hk
      · exact absurd hk hq
      · exact hk

lemma readIpfEntries_inv : ∀ (n : Nat) (c : Cursor) (acc out : List (List Nat × IpfInfo)),
    readIpfEntries n c acc = Except.ok out →
    ((acc.map Prod.fst).Nodup → (out.map Prod.fst).Nodup) ∧
    ((∀ p ∈ acc, p.1 = p.2.filename.map lowerByte) →
      ∀ p ∈ out, p.1 = p.2.filename.map lowerByte) := by
  intro n
  induction n with
  | zero =>
    intro c acc out h
    simp only [readIpfEntries, Except.ok.injEq] at h
    rw [← h]
    exact ⟨id, id⟩
  | succ n ih =>
    intro c acc out h
    simp only [readIpfEntries] at h
    rcases hp : parseIpfEntry c with _ | ⟨info, c1⟩
    · simp [hp] at h
    · simp only [hp] at h
      by_cases hdup : ((acc.lookup (info.filename.map lowerByte)).isSome : Prop)
      · rw [if_pos hdup] at h
        exact absurd h (by simp)
      · rw [if_neg hdup] at h
        have key_not_mem : info.filename.map lowerByte ∉ acc.map Prod.fst := by
          intro hc
          exact hdup (lookup_isSome_of_mem_keys acc _ hc)
        obtain ⟨ihnd, ihkeys⟩ := ih c1 (acc ++ [(info.filename.map lowerByte, info)]) out h
        constructor
        · intro hnd
          apply ihnd
          simp only [List.map_append, List.map_cons, List.map_nil]
          rw [List.nodup_append]
          exact ⟨hnd, List.nodup_singleton _,
            by simp only [List.disjoint_singleton]; exact key_not_mem⟩
        · intro hkeys
          apply ihkeys
          intro p hp
          rcases List.mem_append.mp hp with hp | hp
          · exact hkeys p hp
          · simp only [List.mem_singleton] at hp
            rw [hp]

lemma ipfOpen_inv (file : List Nat) (a : IpfArchive) (h : ipfOpen file = Except.ok a) :
    (a.files.map Prod.fst).Nodup ∧ ∀ p ∈ a.files, p.1 = p.2.filename.map lowerByte := by
  unfold ipfOpen at h
  split at h
  · split at h
    · split at h
      · rename_i fs he
        simp only [Except.ok.injEq] at h
        obtain ⟨hnd, hkeys⟩ := readIpfEntries_inv _ _ [] fs he
        rw [← h]
        exact ⟨hnd (by simp), fun p hp => (hkeys (by simp)) p hp⟩
      · exact absurd h (by simp)
    · exact absurd h (by simp)
  · exact absurd h (by simp)

/-- Claim C8: entry lookup is case-insensitive and total.  Whenever the
index holds an entry whose filename lowercases to the lowercase of the
queried name, `get` returns that entry and `get_data` does not report
absence; when no entry matches, both report absence (`None`) instead of
raising. -/
theorem lookup_case_insensitive_total (file : List Nat) (a : IpfArchive)
    (h : ipfOpen file = Except.ok a) :
    (∀ p ∈ a.files, ∀ q : List Nat, q.map lowerByte = p.2.filename.map lowerByte →
      a.get q = some p.2 ∧ ∀ inflate, a.get_data inflate q ≠ GetResult.notFound) ∧
    (∀ q : List Nat, (∀ p ∈ a.files, q.map lowerByte ≠ p.2.filename.map lowerByte) →
      a.get q = Option.none ∧ ∀ inflate, a.get_data inflate q = GetResult.notFound) := by
  obtain ⟨hnd, hkeys⟩ := ipfOpen_inv file a h
  constructor
  · intro p hp q hq
    have hget : a.get q = some p.2 := by
      unfold IpfArchive.get
      rw [hq, ← hkeys p hp]
      exact lookup_eq_some_of_mem a.files hnd p hp
    refine ⟨hget, fun inflate => ?_⟩
    unfold IpfArchive.get_data
    rw [hget]
    by_cases hc : p.2.compressed_length = p.2.uncompressed_length
    · simp [hc]
    · simp only [if_neg hc]
      rcases inflate (readAt a.data p.2.data_offset p.2.compressed_length) with _ | out <;> simp
  · intro q hq
    have hget : a.get q = Option.none := by
      unfold IpfArchive.get
      apply lookup_eq_none_of_forall
      intro p hp hc
      exact hq p hp (by rw [← hc, hkeys p hp])
    refine ⟨hget, fun inflate => ?_⟩
    unfold IpfArchive.get_data
    rw [hget]

/-- Claim C8 witness: the entry stored as `Ab` in `ipfFile1` is
retrievable through the differently-cased query `aB`, and `get_data`
does not report it absent. -/
theorem lookup_case_insensitive_total_witness :
    ipfOpen ipfFile1 = Except.ok arc1 ∧ arc1.get [97, 66] = some info1 ∧
      ∀ inflate, arc1.get_data inflate [97, 66] ≠ GetResult.notFound := by
  have H := (lookup_case_insensitive_total ipfFile1 arc1 (by decide)).1
    ([97, 98], info1) (by decide) [97, 66] (by decide)
  exact ⟨by decide, H.1, H.2⟩

/-- Claim C10: the archive decoder rejects duplicates.  On success all
lowercased filenames are pairwise distinct and every inserted entry is
found in the mapping under its key (nothing was overwritten); and
whenever the next parsed entry's lowercased filename is already a key of
the mapping built so far, the decode fails with the duplicate-file
error. -/
theorem duplicate_filename_rejected (file : List Nat) (a : IpfArchive)
    (h : ipfOpen file = Except.ok a) :
    ((a.files.map Prod.fst).Nodup ∧ ∀ p ∈ a.files, a.files.lookup p.1 = some p.2) ∧
    ∀ (n : Nat) (c c' : Cursor) (info : IpfInfo) (acc : List (List Nat × IpfInfo)),
      parseIpfEntry c = some (info, c') →
      (acc.lookup (info.filename.map lowerByte)).isSome = true →
      readIpfEntries (n + 1) c acc = Except.error IpfError.duplicateFile := by
  obtain ⟨hnd, _⟩ := ipfOpen_inv file a h
  refine ⟨⟨hnd, fun p hp => lookup_eq_some_of_mem a.files hnd p hp⟩, ?_⟩
  intro n c c' info acc hparse hdup
  simp only [readIpfEntries, hparse, hdup]
  rfl

/-- Claim C10 witness: `ipfDupFile` (entries `A` then `a`) is rejected
with the duplicate-file error, while the collision-free `ipfFile1`
decodes with pairwise-distinct keys. -/
theorem duplicate_filename_rejected_witness :
    ipfOpen ipfDupFile = Except.error IpfError.duplicateFile ∧
      (arc1.files.map Prod.fst).Nodup :=
  ⟨by decide, (duplicate_filename_rejected ipfFile1 arc1 (by decide)).1.1⟩
